import Mathlib

/-!
Verification development for the mcptools repository.

Python strings are modelled as lists of Unicode code points (`List Nat`).
`str` converts a Lean string literal to that representation.  Python's
`str.lower()` is modelled on the ASCII range (all patterns in the source
are ASCII), `in` (substring test) as `strContains`, `startswith` as
`List.isPrefixOf`, and `str.strip()` / `str.split()` over the ASCII
whitespace characters.
-/

abbrev Str := List Nat

def str (s : String) : Str := s.data.map Char.toNat

def lowerNat (n : Nat) : Nat := if 65 ≤ n ∧ n ≤ 90 then n + 32 else n

def lowerStr (s : Str) : Str := s.map lowerNat

/-- Python `p in s` (substring containment). -/
def strContains (s p : Str) : Bool :=
  (List.range (s.length + 1)).any (fun i => p.isPrefixOf (s.drop i))

/-- ASCII whitespace, the characters Python's `strip()`/`split()` remove. -/
def isSpaceNat (n : Nat) : Bool :=
  n = 32 || n = 9 || n = 10 || n = 13 || n = 11 || n = 12

/-- The single space joining subject and body in `(subject + ' ' + body)`. -/
def spc : Str := [32]

/-! GmailTools constant pattern lists, transcribed from `gmail_tools.py`. -/

def whitelist_domains : List Str :=
  [str "fcps.edu", str "fairfaxcounty.gov", str "townsq.io",
   str "virginiadmv", str "irs.gov", str "dmv.virginia.gov"]

def skip_senders : List Str :=
  [str "tiktok.com",
   str "marketing@", str "promo@", str "newsletter@",
   str "redditmail.com", str "email.monarch.com", str "rescueme.org",
   str "membershipto", str "bankofamerica.com",
   str "ealerts.", str "USPSInformeddelivery", str "schwab.com",
   str "creditkarma.com", str "omadahealth.com",
   str "congressman", str "senator", str "representative", str "house.gov",
   str "senate.gov", str "whitehouse.gov", str "campaign@", str "political",
   str "amazon.com", str "shipment-tracking@", str "ship-confirm@",
   str "auto-confirm@", str "order-update@", str "delivery@",
   str "fedex.com", str "ups.com", str "usps.com", str "dhl.com",
   str "tracking@", str "shipping@", str "shippo.com",
   str "newsletters@audible.com", str "audible.com",
   str "email.bestbuy.com", str "bestbuy.com",
   str "emails.ugg.com", str "ugg.com",
   str "email@mail.salesforce.com",
   str "royalcaribbean", str "carnival.com", str "norwegiancruise",
   str "princess.com", str "hollandamerica.com",
   str "motley.fool.com", str "fool@", str "morningstar.com",
   str "seekingalpha.com", str "investopedia.com",
   str "thestreet.com", str "marketwatch.com", str "barrons.com",
   str "turbotax@", str "turbotax.intuit.com", str "intuit.com",
   str "hbo.com", str "hbomax.com", str "max.com", str "warnermedia.com",
   str "zocdoc.com", str "mail5.zocdoc.com",
   str "notify@membershiptoolkit.com", str "afterschool activities",
   str "fool.com", str "motleyfool.com", str "tom gardner"]

def priority_keywords : List Str :=
  [str "school closed", str "school closing", str "schools closed",
   str "school delay", str "two-hour delay", str "early dismissal",
   str "appointment reminder", str "appointment confirmed",
   str "scheduled for", str "appointment on",
   str "field trip", str "permission slip",
   str "registration due", str "renewal due", str "expires",
   str "property maintenance", str "on site", str "service scheduled",
   str "today at", str "this afternoon", str "this evening",
   str "same day", str "deadline today"]

def skip_keywords : List Str :=
  [str "shipped", str "delivered", str "delivery", str "tracking",
   str "package", str "shipment", str "order confirmation",
   str "your order", str "has shipped", str "out for delivery",
   str "hanger", str "hangers", str "item has been delivered",
   str "deal ends", str "wish list", str "sale", str "discount",
   str "trade up", str "own apple for less",
   str "view as a web page", str "membership now",
   str "newness for your littles", str "latest and greatest",
   str "instant savings", str "save up to", str "up to $", str "off before",
   str "vacay alert", str "vacation alert", str "cruise deal",
   str "limited time offer", str "act now", str "ends tonight",
   str "last chance", str "final hours", str "flash sale",
   str "mega savings", str "huge savings", str "score up to",
   str "click here to", str "shop now", str "buy now", str "order now",
   str "free shipping", str "free delivery", str "no purchase necessary",
   str "terms and conditions apply", str "see details"]

/-! GmailTools predicates (`gmail_tools.py`). -/

/-- `is_whitelisted_sender`: any whitelist domain occurs in `sender.lower()`. -/
def is_whitelisted_sender (sender : Str) : Bool :=
  whitelist_domains.any (fun d => strContains (lowerStr sender) d)

/-- `is_important_sender`: whitelisted senders are always important, otherwise
the first matching skip pattern makes the sender unimportant. -/
def is_important_sender (sender : Str) : Bool :=
  if is_whitelisted_sender sender then true
  else if skip_senders.any (fun p => strContains (lowerStr sender) p) then false
  else true

/-- `has_priority_content`: any priority keyword occurs in
`(subject + ' ' + body).lower()`. -/
def has_priority_content (subject body : Str) : Bool :=
  priority_keywords.any (fun k => strContains (lowerStr (subject ++ spc ++ body)) k)

/-- `is_unimportant_email`: whitelisted senders and priority content are never
unimportant; otherwise any skip keyword in the text makes it unimportant. -/
def is_unimportant_email (subject body sender : Str) : Bool :=
  if is_whitelisted_sender sender then false
  else if has_priority_content subject body then false
  else skip_keywords.any (fun k => strContains (lowerStr (subject ++ spc ++ body)) k)

/-- C1: a sender containing a whitelist domain substring is judged important by
`is_important_sender`, whatever suppression (skip) patterns it also contains:
the whitelist test runs first and returns before the skip patterns are read. -/
theorem C1_whitelist_overrides_skip (s : Str)
    (h : ∃ d ∈ whitelist_domains, strContains (lowerStr s) d = true) :
    is_important_sender s = true := by
  have hw : is_whitelisted_sender s = true := by
    simpa [is_whitelisted_sender, List.any_eq_true] using h
  simp [is_important_sender, hw]

/-- C1 witness: `promo@fcps.edu` contains the whitelist domain `fcps.edu` and
the skip pattern `promo@`, and is judged important. -/
theorem C1_whitelist_overrides_skip_witness :
    (∃ d ∈ whitelist_domains, strContains (lowerStr (str "promo@fcps.edu")) d = true) ∧
    skip_senders.any (fun p => strContains (lowerStr (str "promo@fcps.edu")) p) = true ∧
    is_important_sender (str "promo@fcps.edu") = true :=
  ⟨by decide, by decide, C1_whitelist_overrides_skip (str "promo@fcps.edu") (by decide)⟩

/-- C2: if the text has priority content, or the sender is whitelisted, then
`is_unimportant_email` is false, whatever suppression phrases the text holds. -/
theorem C2_priority_or_whitelist_never_unimportant (subject body sender : Str)
    (h : has_priority_content subject body = true ∨ is_whitelisted_sender sender = true) :
    is_unimportant_email subject body sender = false := by
  rcases h with h | h <;> simp [is_unimportant_email, h]

/-- C2 witness: subject `school closed` (priority), body `flash sale`
(a suppression phrase), non-whitelisted sender: not suppressible. -/
theorem C2_priority_or_whitelist_never_unimportant_witness :
    (has_priority_content (str "school closed") (str "flash sale") = true ∨
      is_whitelisted_sender (str "a@b.com") = true) ∧
    skip_keywords.any
      (fun k => strContains (lowerStr (str "school closed" ++ spc ++ str "flash sale")) k) = true ∧
    is_unimportant_email (str "school closed") (str "flash sale") (str "a@b.com") = false :=
  ⟨Or.inl (by decide), by decide,
    C2_priority_or_whitelist_never_unimportant (str "school closed") (str "flash sale")
      (str "a@b.com") (Or.inl (by decide))⟩

/-! Subject normalization (`gmail_thread_tools.py`, `normalize_subject`). -/

/-- Python `str.strip()`. -/
def pyStrip (s : Str) : Str :=
  ((s.dropWhile isSpaceNat).reverse.dropWhile isSpaceNat).reverse

/-- Split on whitespace keeping empty fields (helper for Python `split()`). -/
def splitSp : Str → List Str
  | [] => [[]]
  | c :: cs =>
    if isSpaceNat c then [] :: splitSp cs
    else
      match splitSp cs with
      | [] => [[c]]
      | w :: ws => (c :: w) :: ws

/-- Python `s.split()`: whitespace-separated fields, empties dropped. -/
def pyWords (s : Str) : List Str := (splitSp s).filter (fun w => !w.isEmpty)

/-- Python `' '.join(ws)`. -/
def joinSp : List Str → Str
  | [] => []
  | w :: ws =>
    match ws with
    | [] => w
    | _ :: _ => w ++ 32 :: joinSp ws

/-- The `prefixes` list stripped by `normalize_subject`. -/
def subject_markers : List Str :=
  [str "RE:", str "Re:", str "RE: [External]", str "Re: [External]",
   str "FW:", str "Fwd:", str "Fw:"]

/-- One pass of the marker-stripping loop body:
`if normalized.startswith(prefix): normalized = normalized[len(prefix):].strip()`. -/
def stripMarker (s : Str) (p : Str) : Str :=
  if p.isPrefixOf s then pyStrip (s.drop p.length) else s

/-- `normalize_subject`: strip each marker once, in list order, then collapse
whitespace with `' '.join(normalized.split())`. -/
def normalize_subject (s : Str) : Str :=
  joinSp (pyWords (subject_markers.foldl stripMarker s))

theorem splitSp_ne_nil (s : Str) : splitSp s ≠ [] := by
  cases s with
  | nil => simp [splitSp]
  | cons c cs =>
    unfold splitSp
    by_cases h : isSpaceNat c
    · simp [h]
    · simp only [h]
      cases splitSp cs <;> simp

theorem splitSp_no_space (s : Str) : ∀ w ∈ splitSp s, ∀ c ∈ w, isSpaceNat c = false := by
  induction s with
  | nil =>
    intro w hw c hc
    simp [splitSp] at hw
    subst hw
    simp at hc
  | cons a as ih =>
    intro w hw c hc
    cases ha : isSpaceNat a with
    | true =>
      simp [splitSp, ha] at hw
      rcases hw with h | h
      · subst h; simp at hc
      · exact ih w h c hc
    | false =>
      cases hsp : splitSp as with
      | nil => exact absurd hsp (splitSp_ne_nil as)
      | cons w0 ws0 =>
        simp [splitSp, ha, hsp] at hw
        rcases hw with h | h
        · subst h
          rcases List.mem_cons.mp hc with h1 | h1
          · subst h1; exact ha
          · exact ih w0 (hsp ▸ List.mem_cons_self w0 ws0) c h1
        · exact ih w (hsp ▸ List.mem_cons_of_mem w0 h) c hc

theorem splitSp_all_nonspace (w : Str) (h : ∀ c ∈ w, isSpaceNat c = false) :
    splitSp w = [w] := by
  induction w with
  | nil => simp [splitSp]
  | cons a as ih =>
    have ha : isSpaceNat a = false := h a (List.mem_cons_self a as)
    have has : splitSp as = [as] := ih (fun c hc => h c (List.mem_cons_of_mem a hc))
    simp [splitSp, ha, has]

theorem splitSp_append (w : Str) (hns : ∀ c ∈ w, isSpaceNat c = false) :
    ∀ s h t, splitSp s = h :: t → splitSp (w ++ s) = (w ++ h) :: t := by
  induction w with
  | nil => intro s h t hs; simpa using hs
  | cons a as ih =>
    intro s h t hs
    have ha : isSpaceNat a = false := hns a (List.mem_cons_self a as)
    have has := ih (fun c hc => hns c (List.mem_cons_of_mem a hc)) s h t hs
    simp [splitSp, ha, has]

theorem pyWords_joinSp (ws : List Str)
    (h : ∀ w ∈ ws, w ≠ [] ∧ ∀ c ∈ w, isSpaceNat c = false) :
    pyWords (joinSp ws) = ws := by
  induction ws with
  | nil => simp [joinSp, pyWords, splitSp]
  | cons w rest ih =>
    obtain ⟨hw, hns⟩ := h w (List.mem_cons_self w rest)
    cases rest with
    | nil =>
      simp only [joinSp]
      rw [pyWords, splitSp_all_nonspace w hns]
      simp [List.isEmpty_iff, hw]
    | cons w2 rest2 =>
      have ihr : pyWords (joinSp (w2 :: rest2)) = w2 :: rest2 :=
        ih (fun x hx => h x (List.mem_cons_of_mem w hx))
      have hsp32 : splitSp (32 :: joinSp (w2 :: rest2)) = [] :: splitSp (joinSp (w2 :: rest2)) := by
        simp [splitSp, isSpaceNat]
      have happ := splitSp_append w hns (32 :: joinSp (w2 :: rest2)) []
        (splitSp (joinSp (w2 :: rest2))) hsp32
      have : joinSp (w :: w2 :: rest2) = w ++ 32 :: joinSp (w2 :: rest2) := by
        simp [joinSp]
      rw [pyWords, this, happ]
      simp only [List.append_nil, List.filter_cons]
      have hne : (!(w.isEmpty) : Bool) = true := by simp [List.isEmpty_iff, hw]
      rw [hne, if_pos rfl, ← pyWords, ihr]

theorem foldl_stripMarker_id (s : Str) :
    ∀ ps : List Str, (∀ p ∈ ps, p.isPrefixOf s = false) →
      ps.foldl stripMarker s = s := by
  intro ps
  induction ps with
  | nil => intro _; rfl
  | cons p rest ih =>
    intro h
    have hp : p.isPrefixOf s = false := h p (List.mem_cons_self p rest)
    have : stripMarker s p = s := by simp [stripMarker, hp]
    simp only [List.foldl_cons, this]
    exact ih (fun q hq => h q (List.mem_cons_of_mem p hq))

/-- C3 counterexample: `normalize_subject` is not idempotent.  One pass over
`RE:RE:A` strips a single `RE:` marker, leaving `RE:A`; a second pass strips
again, giving `A`. -/
theorem C3_normalize_not_idempotent_cex :
    ¬ (normalize_subject (normalize_subject (str "RE:RE:A")) =
        normalize_subject (str "RE:RE:A")) := by decide

/-- C3 (amended): `normalize_subject` is idempotent on every subject whose
normal form does not itself begin with one of the reply/forward markers;
stacked markers (such as `RE:RE:A`) defeat idempotence because each pass
strips each marker at most once. -/
theorem C3_normalize_idempotent_no_marker (x : Str)
    (h : subject_markers.all (fun p => !(p.isPrefixOf (normalize_subject x))) = true) :
    normalize_subject (normalize_subject x) = normalize_subject x := by
  have hfold : subject_markers.foldl stripMarker (normalize_subject x) = normalize_subject x := by
    refine foldl_stripMarker_id _ _ ?_
    intro p hp
    have := (List.all_eq_true.mp h) p hp
    simpa using this
  have hwords : pyWords (joinSp (pyWords (subject_markers.foldl stripMarker x))) =
      pyWords (subject_markers.foldl stripMarker x) := by
    refine pyWords_joinSp _ ?_
    intro w hw
    have hmem : w ∈ splitSp (subject_markers.foldl stripMarker x) :=
      List.mem_of_mem_filter hw
    refine ⟨?_, splitSp_no_space _ w hmem⟩
    have := List.of_mem_filter hw
    simpa [List.isEmpty_iff] using this
  calc normalize_subject (normalize_subject x)
      = joinSp (pyWords (normalize_subject x)) := by rw [normalize_subject, hfold]
    _ = joinSp (pyWords (subject_markers.foldl stripMarker x)) := by
        rw [show normalize_subject x =
          joinSp (pyWords (subject_markers.foldl stripMarker x)) from rfl, hwords]
    _ = normalize_subject x := rfl

/-- C3 witness: `Re: Hello  World` normalizes to `Hello World`, which carries
no marker, and a second normalization leaves it unchanged. -/
theorem C3_normalize_idempotent_no_marker_witness :
    subject_markers.all
      (fun p => !(p.isPrefixOf (normalize_subject (str "Re: Hello  World")))) = true ∧
    normalize_subject (normalize_subject (str "Re: Hello  World")) =
      normalize_subject (str "Re: Hello  World") :=
  ⟨by decide, C3_normalize_idempotent_no_marker (str "Re: Hello  World") (by decide)⟩

/-! Emails and the urgency filter (`gmail_tools.py`, `get_urgent_emails`). -/

/-- An email record: `subject`, `body`, `from` (called `sender` here), `date`. -/
structure Email where
  subject : Str
  body : Str
  sender : Str
  date : Str
deriving DecidableEq

/-- Lowercased `subject + ' ' + body`, the text the urgency check scans. -/
def emailText (m : Email) : Str := lowerStr (m.subject ++ spc ++ m.body)

/-- The urgency word list of `get_urgent_emails` (nine entries in the code). -/
def urgency_words : List Str :=
  [str "urgent", str "asap", str "today", str "deadline", str "due",
   str "important", str "action required", str "respond", str "confirm"]

/-- Modelled from the spec: the five generic urgency words the spec names
(`urgent`, `asap`, `deadline`, `today`, `action required`). -/
def spec_urgency_words : List Str :=
  [str "urgent", str "asap", str "deadline", str "today", str "action required"]

/-- One message survives `get_urgent_emails`: important sender, not an
unimportant email, and whitelisted / priority content / an urgency word.
The `continue` / `append` control flow of the loop is this conjunction;
the reference-email side list is not part of the returned value. -/
def keeps_email (m : Email) : Bool :=
  is_important_sender m.sender &&
  (!is_unimportant_email m.subject m.body m.sender) &&
  (is_whitelisted_sender m.sender || has_priority_content m.subject m.body ||
    urgency_words.any (fun w => strContains (emailText m) w))

/-- `get_urgent_emails` restricted to its pure filtering behaviour over the
fetched messages. -/
def get_urgent_emails (msgs : List Email) : List Email := msgs.filter keeps_email

def emailC5cex : Email := ⟨str "please confirm", [], str "bob@example.com", []⟩

/-- C5 counterexample: the email `please confirm` from `bob@example.com`
survives sender and suppression filtering and is kept as urgent, yet it has
none of the claim's three properties — no word of the claimed five-word list,
no whitelisted sender, no priority content.  The code's urgency list also
holds `due`, `important`, `respond` and `confirm`. -/
theorem C5_urgency_words_cex :
    get_urgent_emails [emailC5cex] = [emailC5cex] ∧
    spec_urgency_words.any (fun w => strContains (emailText emailC5cex) w) = false ∧
    is_whitelisted_sender emailC5cex.sender = false ∧
    has_priority_content emailC5cex.subject emailC5cex.body = false ∧
    is_important_sender emailC5cex.sender = true ∧
    is_unimportant_email emailC5cex.subject emailC5cex.body emailC5cex.sender = false := by
  refine ⟨?_, by decide, by decide, by decide, by decide, by decide⟩
  decide

/-- C5 (amended): an email surviving sender and suppression filtering is kept
as urgent iff its text contains one of the code's nine urgency words
(`urgent`, `asap`, `today`, `deadline`, `due`, `important`, `action required`,
`respond`, `confirm`), or its sender is whitelisted, or it has priority
content. -/
theorem C5_urgency_filter (msgs : List Email) (m : Email) (hm : m ∈ msgs)
    (h1 : is_important_sender m.sender = true)
    (h2 : is_unimportant_email m.subject m.body m.sender = false) :
    (m ∈ get_urgent_emails msgs ↔
      (urgency_words.any (fun w => strContains (emailText m) w) = true ∨
        is_whitelisted_sender m.sender = true ∨
        has_priority_content m.subject m.body = true)) := by
  simp only [get_urgent_emails, List.mem_filter, hm, true_and, keeps_email, h1, h2,
    Bool.not_false, Bool.and_self, Bool.true_and, Bool.or_eq_true, Bool.and_eq_true]
  tauto

def emailC5w : Email := ⟨str "urgent: roof leak", [], str "x@y.com", []⟩

/-- C5 witness: a concrete surviving email with an urgency word is kept. -/
theorem C5_urgency_filter_witness :
    emailC5w ∈ get_urgent_emails [emailC5w] :=
  (C5_urgency_filter [emailC5w] emailC5w (List.mem_cons_self _ _) (by decide)
    (by decide)).mpr (Or.inl (by decide))

/-! Thread scoring and ranking (`gmail_thread_tools.py`, `get_priority_threads`). -/

def emptyEmail : Email := ⟨[], [], [], []⟩

/-- The action-keyword list of `get_priority_threads`. -/
def thread_urgency_words : List Str :=
  [str "urgent", str "asap", str "today", str "deadline", str "action required"]

/-- The score `get_priority_threads` accumulates for one thread.  The code
indexes `emails[-1]`; `getLastD` models that for the non-empty threads the
function is run on. -/
def thread_score (emails : List Email) : Nat :=
  let latest := emails.getLastD emptyEmail
  (if is_whitelisted_sender latest.sender then 100 else 0) +
  (if emails.any (fun e => has_priority_content e.subject e.body) then 50 else 0) +
  (if emails.length > 1 then emails.length * 10 else 0) +
  (if thread_urgency_words.any
      (fun w => strContains (lowerStr (latest.subject ++ spc ++ latest.body)) w)
    then 30 else 0)

/-- The thread score as the spec sentence words it: 100 if the latest item has
a whitelisted sender, plus 50 if any item has priority content, plus 10 times
the item count when the count exceeds 1, plus 30 if the latest item's text
contains a generic urgency word. -/
def spec_thread_score (emails : List Email) : Nat :=
  (if is_whitelisted_sender (emails.getLastD emptyEmail).sender then 100 else 0) +
  (if emails.any (fun e => has_priority_content e.subject e.body) then 50 else 0) +
  (if 1 < emails.length then 10 * emails.length else 0) +
  (if thread_urgency_words.any
      (fun w => strContains (lowerStr ((emails.getLastD emptyEmail).subject ++ spc ++
        (emails.getLastD emptyEmail).body)) w)
    then 30 else 0)

/-- Stable insertion for a descending sort by `key`: the new element goes
after every element whose key is at least its own, as Python's stable
`list.sort(reverse=True, key=...)` places it. -/
def insertDescBy {α : Type} (key : α → Nat) (x : α) : List α → List α
  | [] => [x]
  | y :: ys => if key y < key x then x :: y :: ys else y :: insertDescBy key x ys

/-- Stable descending sort by `key` (model of Python's stable sort with
`reverse=True`). -/
def sortDescBy {α : Type} (key : α → Nat) (l : List α) : List α :=
  l.foldl (fun acc x => insertDescBy key x acc) []

/-- `get_priority_threads`: score each thread, sort descending by score
(stable), keep the first `max_threads`. -/
def get_priority_threads (threads : List (Str × List Email)) (max_threads : Nat) :
    List (Str × List Email) :=
  let scored := threads.map (fun t => (thread_score t.2, t))
  let sorted := sortDescBy (fun x => x.1) scored
  (sorted.take max_threads).map (fun x => x.2)

theorem mem_insertDescBy {α : Type} (key : α → Nat) (x b : α) (l : List α) :
    b ∈ insertDescBy key x l ↔ b = x ∨ b ∈ l := by
  induction l with
  | nil => simp [insertDescBy]
  | cons y ys ih =>
    by_cases hk : key y < key x
    · simp [insertDescBy, hk]
    · simp only [insertDescBy, if_neg hk, List.mem_cons, ih]
      tauto

theorem insertDescBy_perm {α : Type} (key : α → Nat) (x : α) (l : List α) :
    (insertDescBy key x l).Perm (x :: l) := by
  induction l with
  | nil => simp [insertDescBy]
  | cons y ys ih =>
    by_cases hk : key y < key x
    · simp [insertDescBy, hk]
    · simp only [insertDescBy, if_neg hk]
      exact (List.Perm.cons y ih).trans (List.Perm.swap x y ys)

theorem insertDescBy_sorted {α : Type} (key : α → Nat) (x : α) (l : List α)
    (h : l.Pairwise (fun a b => key b ≤ key a)) :
    (insertDescBy key x l).Pairwise (fun a b => key b ≤ key a) := by
  induction l with
  | nil => simp [insertDescBy]
  | cons y ys ih =>
    rcases List.pairwise_cons.mp h with ⟨hy, hys⟩
    by_cases hk : key y < key x
    · simp only [insertDescBy, if_pos hk]
      refine List.pairwise_cons.mpr ⟨?_, h⟩
      intro b hb
      rcases List.mem_cons.mp hb with rfl | hb
      · exact Nat.le_of_lt hk
      · exact le_trans (hy b hb) (Nat.le_of_lt hk)
    · simp only [insertDescBy, if_neg hk]
      refine List.pairwise_cons.mpr ⟨?_, ih hys⟩
      intro b hb
      rcases (mem_insertDescBy key x b ys).mp hb with rfl | hb
      · exact Nat.le_of_not_lt hk
      · exact hy b hb

theorem insertDescBy_filter_eq {α : Type} (key : α → Nat) (x : α) (l : List α)
    (h : l.Pairwise (fun a b => key b ≤ key a)) :
    (insertDescBy key x l).filter (fun y => key y == key x) =
      l.filter (fun y => key y == key x) ++ [x] := by
  induction l with
  | nil => simp [insertDescBy]
  | cons y ys ih =>
    rcases List.pairwise_cons.mp h with ⟨hy, hys⟩
    by_cases hk : key y < key x
    · simp only [insertDescBy, if_pos hk]
      have hnil : (y :: ys).filter (fun z => key z == key x) = [] := by
        refine List.filter_eq_nil_iff.mpr ?_
        intro a ha
        rcases List.mem_cons.mp ha with rfl | ha
        · simp; omega
        · have := hy a ha
          simp; omega
      rw [hnil, List.filter_cons]
      simp [hnil]
    · simp only [insertDescBy, if_neg hk, List.filter_cons]
      by_cases he : key y == key x
      · simp only [he, if_pos rfl, ih hys]
        simp [he]
      · simp only [he]
        rw [ih hys]
        simp [he]

theorem insertDescBy_filter_ne {α : Type} (key : α → Nat) (x : α) (l : List α)
    (s : Nat) (hs : s ≠ key x) :
    (insertDescBy key x l).filter (fun y => key y == s) =
      l.filter (fun y => key y == s) := by
  induction l with
  | nil => simp [insertDescBy, Ne.symm hs]
  | cons y ys ih =>
    by_cases hk : key y < key x
    · simp [insertDescBy, hk, List.filter_cons, Ne.symm hs]
    · simp [insertDescBy, hk, List.filter_cons, ih]

theorem length_insertDescBy {α : Type} (key : α → Nat) (x : α) (l : List α) :
    (insertDescBy key x l).length = l.length + 1 := by
  induction l with
  | nil => simp [insertDescBy]
  | cons y ys ih =>
    by_cases hk : key y < key x
    · simp [insertDescBy, hk]
    · simp [insertDescBy, hk, ih]

theorem sortDescBy_aux_perm {α : Type} (key : α → Nat) (l : List α) :
    ∀ acc : List α,
      (l.foldl (fun acc x => insertDescBy key x acc) acc).Perm (acc ++ l) := by
  induction l with
  | nil => intro acc; simp
  | cons x xs ih =>
    intro acc
    have h3 : (insertDescBy key x acc ++ xs).Perm (acc ++ x :: xs) :=
      (List.Perm.append_right xs (insertDescBy_perm key x acc)).trans List.perm_middle.symm
    exact (ih (insertDescBy key x acc)).trans h3

theorem sortDescBy_perm {α : Type} (key : α → Nat) (l : List α) :
    (sortDescBy key l).Perm l := by
  simpa using sortDescBy_aux_perm key l []

theorem sortDescBy_aux_sorted {α : Type} (key : α → Nat) (l : List α) :
    ∀ acc : List α, acc.Pairwise (fun a b => key b ≤ key a) →
      (l.foldl (fun acc x => insertDescBy key x acc) acc).Pairwise
        (fun a b => key b ≤ key a) := by
  induction l with
  | nil => intro acc h; simpa using h
  | cons x xs ih =>
    intro acc h
    exact ih (insertDescBy key x acc) (insertDescBy_sorted key x acc h)

theorem sortDescBy_sorted {α : Type} (key : α → Nat) (l : List α) :
    (sortDescBy key l).Pairwise (fun a b => key b ≤ key a) :=
  sortDescBy_aux_sorted key l [] (by simp)

theorem sortDescBy_aux_filter {α : Type} (key : α → Nat) (l : List α) (s : Nat) :
    ∀ acc : List α, acc.Pairwise (fun a b => key b ≤ key a) →
      (l.foldl (fun acc x => insertDescBy key x acc) acc).filter (fun y => key y == s) =
        acc.filter (fun y => key y == s) ++ l.filter (fun y => key y == s) := by
  induction l with
  | nil => intro acc _; simp
  | cons x xs ih =>
    intro acc h
    have step := ih (insertDescBy key x acc) (insertDescBy_sorted key x acc h)
    rw [List.foldl_cons, step, List.filter_cons]
    by_cases hs : s = key x
    · subst hs
      rw [insertDescBy_filter_eq key x acc h]
      simp [List.append_assoc]
    · rw [insertDescBy_filter_ne key x acc s hs]
      have : (key x == s) = false := by simp; omega
      simp [this, List.append_assoc]

/-- Stability of the descending sort: for every score value, the elements
carrying that score appear in the sorted list exactly as they appear in the
input. -/
theorem sortDescBy_filter {α : Type} (key : α → Nat) (l : List α) (s : Nat) :
    (sortDescBy key l).filter (fun y => key y == s) = l.filter (fun y => key y == s) := by
  simpa using sortDescBy_aux_filter key l s [] (by simp)

theorem length_sortDescBy {α : Type} (key : α → Nat) (l : List α) :
    (sortDescBy key l).length = l.length :=
  (sortDescBy_perm key l).length_eq

theorem thread_score_eq_spec (emails : List Email) :
    thread_score emails = spec_thread_score emails := by
  simp [thread_score, spec_thread_score, Nat.mul_comm]

/-- C4: each thread's score is the spec's sum (100 whitelisted latest sender,
50 any priority item, 10 times the count when above 1, 30 urgency word in the
latest item's text); the ranking is the stable descending sort by that score
truncated to `max_threads`: the output scores descend, every returned thread
comes from the input, equal-score threads keep their input order (the filter
equation), and at most `max_threads` survive. -/
theorem C4_get_priority_threads (threads : List (Str × List Email)) (k : Nat)
    (hne : ∀ t ∈ threads, t.2 ≠ []) :
    (∀ t ∈ threads, thread_score t.2 = spec_thread_score t.2) ∧
    get_priority_threads threads k =
      ((sortDescBy (fun x => x.1)
        (threads.map (fun t => (spec_thread_score t.2, t)))).take k).map (fun x => x.2) ∧
    ((get_priority_threads threads k).map (fun t => thread_score t.2)).Pairwise
      (fun a b => b ≤ a) ∧
    (∀ t ∈ get_priority_threads threads k, t ∈ threads) ∧
    (get_priority_threads threads k).length = min k threads.length ∧
    (∀ s : Nat,
      (sortDescBy (fun x => x.1) (threads.map (fun t => (thread_score t.2, t)))).filter
          (fun x => x.1 == s) =
        (threads.map (fun t => (thread_score t.2, t))).filter (fun x => x.1 == s)) := by
  have hmem_scored : ∀ x ∈ sortDescBy (fun y : Nat × (Str × List Email) => y.1)
      (threads.map (fun t => (thread_score t.2, t))),
      x.1 = thread_score x.2.2 ∧ x.2 ∈ threads := by
    intro x hx
    have hx' : x ∈ threads.map (fun t => (thread_score t.2, t)) :=
      (sortDescBy_perm _ _).mem_iff.mp hx
    rcases List.mem_map.mp hx' with ⟨t, ht, rfl⟩
    exact ⟨rfl, ht⟩
  refine ⟨fun t _ => thread_score_eq_spec t.2, ?_, ?_, ?_, ?_, fun s => sortDescBy_filter _ _ s⟩
  · simp [get_priority_threads, thread_score_eq_spec]
  · have hsorted := sortDescBy_sorted (fun y : Nat × (Str × List Email) => y.1)
      (threads.map (fun t => (thread_score t.2, t)))
    have htake := List.Pairwise.sublist (List.take_sublist k _) hsorted
    rw [get_priority_threads, List.map_map]
    rw [List.pairwise_map]
    refine List.Pairwise.imp_of_mem ?_ htake
    intro a b ha hb hr
    have ha' := (hmem_scored a (List.mem_of_mem_take ha)).1
    have hb' := (hmem_scored b (List.mem_of_mem_take hb)).1
    simpa [Function.comp, ← ha', ← hb'] using hr
  · intro t ht
    rw [get_priority_threads] at ht
    rcases List.mem_map.mp ht with ⟨x, hx, rfl⟩
    exact (hmem_scored x (List.mem_of_mem_take hx)).2
  · rw [get_priority_threads, List.length_map, List.length_take, length_sortDescBy,
      List.length_map]

def threadA : Str × List Email :=
  (str "pta news", [⟨str "pta news", [], str "pta@lists.org", []⟩])

def threadB : Str × List Email :=
  (str "school closed", [⟨str "school closed", [], str "news@fcps.edu", []⟩])

/-- C4 witness: a whitelisted school-closing thread (score 150) overtakes a
zero-score thread listed before it; both are returned when `max_threads` is 2. -/
theorem C4_get_priority_threads_witness :
    get_priority_threads [threadA, threadB] 2 = [threadB, threadA] ∧
    (get_priority_threads [threadA, threadB] 2).length = min 2 [threadA, threadB].length ∧
    (∀ t ∈ [threadA, threadB], thread_score t.2 = spec_thread_score t.2) :=
  ⟨by decide,
    (C4_get_priority_threads [threadA, threadB] 2 (by decide)).2.2.2.2.1,
    (C4_get_priority_threads [threadA, threadB] 2 (by decide)).1⟩

/-! Email deduplication (`run_process_new.py`, the `seen_subjects` loop). -/

/-- Python ordered-dict assignment `d[k] = v`: update in place when the key
exists, else append at the end. -/
def dictSet (d : List (Str × Email)) (k : Str) (v : Email) : List (Str × Email) :=
  if d.any (fun kv => kv.1 == k) then
    d.map (fun kv => if kv.1 == k then (k, v) else kv)
  else d ++ [(k, v)]

/-- Python `del d[k]` (dict keys are unique, so a filter removes exactly it). -/
def dictDel (d : List (Str × Email)) (k : Str) : List (Str × Email) :=
  d.filter (fun kv => !(kv.1 == k))

/-- The duplicate test of the dedup loop: both lowercased subjects contain
`school`, and both contain `closed`, or both `delay`, or both `open`. -/
def dupCond (subjL seenL : Str) : Bool :=
  strContains subjL (str "school") && strContains seenL (str "school") &&
  (strContains subjL (str "closed") && strContains seenL (str "closed") ||
   strContains subjL (str "delay") && strContains seenL (str "delay") ||
   strContains subjL (str "open") && strContains seenL (str "open"))

/-- `'update:' in subject.lower()`. -/
def hasUpdateMarker (s : Str) : Bool := strContains (lowerStr s) (str "update:")

/-- One iteration of the dedup loop: find the first seen subject judged a
duplicate of the incoming email's; when the incoming subject carries the
UPDATE marker and the seen one does not, the incoming email replaces it
(`seen_subjects[subject] = email` then `del seen_subjects[seen_subject]`);
a detected duplicate is otherwise dropped; a non-duplicate is recorded. -/
def dedup_step (d : List (Str × Email)) (e : Email) : List (Str × Email) :=
  match d.find? (fun kv => dupCond (lowerStr e.subject) (lowerStr kv.1)) with
  | some kv =>
      if hasUpdateMarker e.subject && !hasUpdateMarker kv.1 then
        dictDel (dictSet d e.subject e) kv.1
      else d
  | none => dictSet d e.subject e

/-- The dedup pass of `process_new`: fold the loop over the urgent emails and
read the surviving values in dict (insertion) order. -/
def dedup_emails (emails : List Email) : List Email :=
  (emails.foldl dedup_step []).map (fun kv => kv.2)

/-- C6: when two emails are judged same-event duplicates, exactly one is
retained: the UPDATE-marked one when exactly one carries the marker, in either
arrival order, and otherwise the first seen. -/
theorem C6_dedup_pair (e1 e2 : Email)
    (hdup : dupCond (lowerStr e2.subject) (lowerStr e1.subject) = true) :
    (hasUpdateMarker e2.subject = true → hasUpdateMarker e1.subject = false →
      dedup_emails [e1, e2] = [e2]) ∧
    (hasUpdateMarker e2.subject = false → dedup_emails [e1, e2] = [e1]) ∧
    (hasUpdateMarker e1.subject = true → dedup_emails [e1, e2] = [e1]) := by
  have hstep1 : dedup_step [] e1 = [(e1.subject, e1)] := by
    simp [dedup_step, dictSet]
  have hfind : ([(e1.subject, e1)].find?
      (fun kv => dupCond (lowerStr e2.subject) (lowerStr kv.1))) = some (e1.subject, e1) :=
    List.find?_cons_of_pos _ (by simpa using hdup)
  refine ⟨?_, ?_, ?_⟩
  · intro h2 h1
    have hne : (e1.subject == e2.subject) = false := by
      cases hbe : e1.subject == e2.subject with
      | true =>
        have : e1.subject = e2.subject := by simpa using hbe
        rw [this, h2] at h1
        exact absurd h1 (by simp)
      | false => rfl
    have hne' : (e2.subject == e1.subject) = false := by
      cases hbe : e2.subject == e1.subject with
      | true =>
        have : e2.subject = e1.subject := by simpa using hbe
        rw [← this, h2] at h1
        exact absurd h1 (by simp)
      | false => rfl
    rw [dedup_emails, List.foldl_cons, List.foldl_cons, List.foldl_nil, hstep1,
      dedup_step, hfind]
    simp only [h2, h1, Bool.not_false, Bool.and_self, if_pos rfl]
    simp [dictSet, dictDel, hne, hne']
  · intro h2
    rw [dedup_emails, List.foldl_cons, List.foldl_cons, List.foldl_nil, hstep1,
      dedup_step, hfind]
    simp [h2]
  · intro h1
    rw [dedup_emails, List.foldl_cons, List.foldl_cons, List.foldl_nil, hstep1,
      dedup_step, hfind]
    simp [h1]

def emailSchoolPlain : Email := ⟨str "School Closed Today", [], [], []⟩

def emailSchoolUpdate : Email :=
  ⟨str "UPDATE: School Closed Today — Early Dismissal", [], [], []⟩

/-- C6 witness: with subjects `School Closed Today` and
`UPDATE: School Closed Today — Early Dismissal`, only the UPDATE-prefixed
email survives, in either arrival order. -/
theorem C6_dedup_pair_witness :
    dedup_emails [emailSchoolPlain, emailSchoolUpdate] = [emailSchoolUpdate] ∧
    dedup_emails [emailSchoolUpdate, emailSchoolPlain] = [emailSchoolUpdate] :=
  ⟨(C6_dedup_pair emailSchoolPlain emailSchoolUpdate (by decide)).1 (by decide) (by decide),
    (C6_dedup_pair emailSchoolUpdate emailSchoolPlain (by decide)).2.2 (by decide)⟩

/-! Freshness filtering (`run_process_new.py`, the age cutoff). -/

/-- The school/event keyword set of the freshness check. -/
def school_event_keywords : List Str :=
  [str "school", str "sacc", str "btb", str "closed", str "delay",
   str "dismissal", str "canceled", str "cancelled"]

def is_school_event (subject : Str) : Bool :=
  school_event_keywords.any (fun k => strContains (lowerStr subject) k)

/-- The category cutoff: 24 hours before `now` for school/event subjects,
48 hours otherwise.  Times are seconds. -/
def email_cutoff (now : Int) (subject : Str) : Int :=
  if is_school_event subject then now - 24 * 3600 else now - 48 * 3600

/-- One email passes the freshness check.  `parse` stands for the external
`email.utils.parsedate_to_datetime`; `none` models the exception the code
catches, after which the email is retained, as it is when the date header is
empty. -/
def fresh_keep (parse : Str → Option Int) (now : Int) (e : Email) : Bool :=
  if e.date.isEmpty then true
  else
    match parse e.date with
    | none => true
    | some t => !(t < email_cutoff now e.subject)

def fresh_filter (parse : Str → Option Int) (now : Int) (emails : List Email) : List Email :=
  emails.filter (fresh_keep parse now)

/-- C7: a deduplicated email with a parseable date is excluded exactly when
its date predates the category cutoff (24h before now for school/event
subjects, 48h otherwise); an email whose date is missing or unparseable is
always retained. -/
theorem C7_freshness_cutoff (parse : Str → Option Int) (now : Int)
    (emails : List Email) (e : Email) (he : e ∈ emails) :
    ((e.date = [] ∨ parse e.date = none) → e ∈ fresh_filter parse now emails) ∧
    (∀ t : Int, e.date ≠ [] → parse e.date = some t →
      (e ∉ fresh_filter parse now emails ↔
        t < (if is_school_event e.subject then now - 24 * 3600 else now - 48 * 3600))) := by
  constructor
  · intro h
    refine List.mem_filter.mpr ⟨he, ?_⟩
    rcases h with h | h
    · simp [fresh_keep, h]
    · rw [fresh_keep]
      by_cases hd : e.date.isEmpty
      · simp [hd]
      · simp only [hd, if_neg, h]
        simp
  · intro t hd hp
    have hde : e.date.isEmpty = false := by
      simpa [List.isEmpty_iff] using hd
    have hkeep : fresh_keep parse now e = !(t < email_cutoff now e.subject) := by
      rw [fresh_keep, hde]
      simp [hp]
    constructor
    · intro hnot
      by_contra hlt
      exact hnot (List.mem_filter.mpr ⟨he, by rw [hkeep, email_cutoff]; simpa using hlt⟩)
    · intro hlt hmem
      have := (List.mem_filter.mp hmem).2
      rw [hkeep] at this
      rw [email_cutoff] at this
      simp only [Bool.not_eq_true', decide_eq_false_iff_not] at this
      exact this hlt

def emailC7 : Email := ⟨str "hello", [], str "x@y.com", str "Mon, 01 Jan 2024 00:00:00"⟩

/-- C7 witness: with a parser placing the email before the 48-hour cutoff it
is excluded; with a failing parser the same email is retained. -/
theorem C7_freshness_cutoff_witness :
    (emailC7 ∉ fresh_filter (fun _ => some 0) 200000 [emailC7]) ∧
    (emailC7 ∈ fresh_filter (fun _ => none) 200000 [emailC7]) :=
  ⟨((C7_freshness_cutoff (fun _ => some 0) 200000 [emailC7] emailC7
      (List.mem_cons_self _ _)).2 0 (by decide) rfl).mpr (by decide),
    (C7_freshness_cutoff (fun _ => none) 200000 [emailC7] emailC7
      (List.mem_cons_self _ _)).1 (Or.inr rfl)⟩

/-! The daily plan assembled by `process_new` (`run_process_new.py`). -/

/-- A Todoist due record; `date` may be absent (`due.get("date")` is `None`). -/
structure TaskDue where
  date : Option Str

/-- A Todoist task: `content`, optional `due` dict, `priority`. -/
structure TodoTask where
  content : Str
  due : Option TaskDue
  priority : Nat

/-- A calendar event: `summary`, `date`, optional `time`. -/
structure Event where
  summary : Str
  date : Str
  time : Option Str

/-- One bucket entry, tagged by the source record it was built from. -/
inductive PlanItem where
  | emailItem (e : Email)
  | taskItem (t : TodoTask)
  | eventItem (v : Event)

/-- The plan with its three buckets and the stats the code fills in at the
end; only the stats the claims mention are modelled. -/
structure Plan where
  do_now : List PlanItem
  do_soon : List PlanItem
  monitor : List PlanItem
  stats_total_items : Nat

def task_due_date (t : TodoTask) : Option Str :=
  t.due.bind (fun d => d.date)

/-- `task.get("due")` truthy and `due_date == today`. -/
def task_in_do_now (today : Str) (t : TodoTask) : Bool :=
  t.due.isSome && (task_due_date t == some today)

/-- `task.get("due")` truthy, `due_date != today`, and `due_date` truthy
(present and non-empty). -/
def task_in_do_soon (today : Str) (t : TodoTask) : Bool :=
  t.due.isSome && !(task_due_date t == some today) &&
    (match task_due_date t with
      | some s => !s.isEmpty
      | none => false)

/-- The `process_new` plan assembly: urgent emails, deduplicated then
freshness-filtered, all land in `do_now`; tasks due today join `do_now`,
other dated tasks `do_soon`, undated tasks `monitor`; today's events join
`do_now`, later events `do_soon`.  `stats.total_items` is the sum of the
three bucket sizes before any display truncation.  The refetch of full email
content is modelled as the identity on the email records. -/
def process_new_plan (parse : Str → Option Int) (now : Int) (today : Str)
    (msgs : List Email) (tasks : List TodoTask) (events : List Event) : Plan :=
  let fresh := fresh_filter parse now (dedup_emails (get_urgent_emails msgs))
  let do_now := fresh.map PlanItem.emailItem
    ++ (tasks.filter (task_in_do_now today)).map PlanItem.taskItem
    ++ (events.filter (fun v => v.date == today)).map PlanItem.eventItem
  let do_soon := (tasks.filter (task_in_do_soon today)).map PlanItem.taskItem
    ++ (events.filter (fun v => !(v.date == today))).map PlanItem.eventItem
  let monitor := (tasks.filter (fun t => t.due.isNone)).map PlanItem.taskItem
  ⟨do_now, do_soon, monitor, do_now.length + do_soon.length + monitor.length⟩

theorem mem_dedup_step (d : List (Str × Email)) (e : Email) (kv : Str × Email)
    (h : kv ∈ dedup_step d e) : kv ∈ d ∨ kv = (e.subject, e) := by
  have hset : ∀ d' : List (Str × Email), kv ∈ dictSet d' e.subject e →
      kv ∈ d' ∨ kv = (e.subject, e) := by
    intro d' hkv
    rw [dictSet] at hkv
    by_cases hany : d'.any (fun kv => kv.1 == e.subject)
    · rw [if_pos hany] at hkv
      rcases List.mem_map.mp hkv with ⟨kv', hkv', hfe⟩
      by_cases hk : kv'.1 == e.subject
      · right; rw [if_pos hk] at hfe; exact hfe.symm
      · left; rw [if_neg hk] at hfe; exact hfe ▸ hkv'
    · rw [if_neg hany] at hkv
      rcases List.mem_append.mp hkv with h | h
      · exact Or.inl h
      · right; simpa using h
  rw [dedup_step] at h
  cases hf : (d.find? fun kv => dupCond (lowerStr e.subject) (lowerStr kv.1)) with
  | none =>
    simp only [hf] at h
    exact hset d h
  | some kv0 =>
    simp only [hf] at h
    by_cases hu : (hasUpdateMarker e.subject && !hasUpdateMarker kv0.1) = true
    · rw [if_pos hu] at h
      exact hset d (List.mem_of_mem_filter h)
    · rw [if_neg hu] at h
      exact Or.inl h

theorem mem_dedup_foldl (l : List Email) :
    ∀ (d : List (Str × Email)) (kv : Str × Email),
      kv ∈ l.foldl dedup_step d → kv ∈ d ∨ kv.2 ∈ l := by
  induction l with
  | nil => intro d kv h; exact Or.inl h
  | cons e es ih =>
    intro d kv h
    rcases ih (dedup_step d e) kv h with h' | h'
    · rcases mem_dedup_step d e kv h' with h'' | h''
      · exact Or.inl h''
      · right; rw [h'']; exact List.mem_cons_self _ _
    · right; exact List.mem_cons_of_mem _ h'

theorem mem_of_mem_dedup_emails (l : List Email) (e : Email)
    (h : e ∈ dedup_emails l) : e ∈ l := by
  rcases List.mem_map.mp h with ⟨kv, hkv, rfl⟩
  rcases mem_dedup_foldl l [] kv hkv with h' | h'
  · simp at h'
  · exact h'

/-- C8: an email whose text matches a suppression phrase, with a
non-whitelisted sender and no priority content, never appears in any plan
bucket: the urgency filter already removes it, and the later pipeline stages
only narrow the email set. -/
theorem C8_suppressed_never_in_plan (parse : Str → Option Int) (now : Int)
    (today : Str) (msgs : List Email) (tasks : List TodoTask) (events : List Event)
    (e : Email)
    (hskip : skip_keywords.any
      (fun k => strContains (lowerStr (e.subject ++ spc ++ e.body)) k) = true)
    (hwl : is_whitelisted_sender e.sender = false)
    (hpr : has_priority_content e.subject e.body = false) :
    PlanItem.emailItem e ∉ (process_new_plan parse now today msgs tasks events).do_now ∧
    PlanItem.emailItem e ∉ (process_new_plan parse now today msgs tasks events).do_soon ∧
    PlanItem.emailItem e ∉ (process_new_plan parse now today msgs tasks events).monitor := by
  have hunimp : is_unimportant_email e.subject e.body e.sender = true := by
    rw [is_unimportant_email, if_neg (by simp [hwl]), if_neg (by simp [hpr])]
    exact hskip
  have hkeeps : keeps_email e = false := by
    rw [keeps_email, hunimp]
    simp
  refine ⟨?_, ?_, ?_⟩
  · intro hmem
    rw [process_new_plan] at hmem
    simp only [List.mem_append] at hmem
    rcases hmem with (h | h) | h
    · rcases List.mem_map.mp h with ⟨e', he', heq⟩
      have : e' = e := by injection heq
      subst this
      have h1 : e' ∈ dedup_emails (get_urgent_emails msgs) := List.mem_of_mem_filter he'
      have h2 : e' ∈ get_urgent_emails msgs := mem_of_mem_dedup_emails _ _ h1
      have h3 := (List.mem_filter.mp h2).2
      rw [hkeeps] at h3
      exact absurd h3 (by simp)
    · rcases List.mem_map.mp h with ⟨t, _, heq⟩
      exact PlanItem.noConfusion heq
    · rcases List.mem_map.mp h with ⟨v, _, heq⟩
      exact PlanItem.noConfusion heq
  · intro hmem
    rw [process_new_plan] at hmem
    simp only [List.mem_append] at hmem
    rcases hmem with h | h
    · rcases List.mem_map.mp h with ⟨t, _, heq⟩
      exact PlanItem.noConfusion heq
    · rcases List.mem_map.mp h with ⟨v, _, heq⟩
      exact PlanItem.noConfusion heq
  · intro hmem
    rw [process_new_plan] at hmem
    rcases List.mem_map.mp hmem with ⟨t, _, heq⟩
    exact PlanItem.noConfusion heq

def emailC8 : Email := ⟨str "mega savings inside", [], str "deals@shop.com", []⟩

/-- C8 witness: a promotional email (`mega savings`) from a non-whitelisted
sender lands in no bucket of a concrete plan. -/
theorem C8_suppressed_never_in_plan_witness :
    PlanItem.emailItem emailC8 ∉
      (process_new_plan (fun _ => none) 0 (str "2026-10-12") [emailC8] [] []).do_now ∧
    PlanItem.emailItem emailC8 ∉
      (process_new_plan (fun _ => none) 0 (str "2026-10-12") [emailC8] [] []).do_soon ∧
    PlanItem.emailItem emailC8 ∉
      (process_new_plan (fun _ => none) 0 (str "2026-10-12") [emailC8] [] []).monitor :=
  C8_suppressed_never_in_plan (fun _ => none) 0 (str "2026-10-12") [emailC8] [] []
    emailC8 (by decide) (by decide) (by decide)

/-! Daily-note rendering (`amplenote_tools.py`, `update_daily_note_with_plan`). -/

/-- The Priority Actions entries the daily note renders:
`enumerate(plan['do_now'][:8], 1)`. -/
def rendered_priority_actions (p : Plan) : List (Nat × PlanItem) :=
  (p.do_now.take 8).enumFrom 1

/-- The This Week entries the daily note renders: `plan['do_soon'][:7]`. -/
def rendered_week_items (p : Plan) : List PlanItem := p.do_soon.take 7

/-- C9: the rendered note lists at most 8 `do_now` entries and at most 7
`do_soon` entries, each a prefix of its bucket in insertion order, while
`stats.total_items` counts the full, untruncated buckets. -/
theorem C9_display_caps (parse : Str → Option Int) (now : Int) (today : Str)
    (msgs : List Email) (tasks : List TodoTask) (events : List Event) :
    (rendered_priority_actions (process_new_plan parse now today msgs tasks events)).length ≤ 8 ∧
    (rendered_week_items (process_new_plan parse now today msgs tasks events)).length ≤ 7 ∧
    (∃ rest,
      (rendered_priority_actions (process_new_plan parse now today msgs tasks events)).map
          (fun x => x.2) ++ rest =
        (process_new_plan parse now today msgs tasks events).do_now) ∧
    (∃ rest,
      rendered_week_items (process_new_plan parse now today msgs tasks events) ++ rest =
        (process_new_plan parse now today msgs tasks events).do_soon) ∧
    (process_new_plan parse now today msgs tasks events).stats_total_items =
      (process_new_plan parse now today msgs tasks events).do_now.length +
      (process_new_plan parse now today msgs tasks events).do_soon.length +
      (process_new_plan parse now today msgs tasks events).monitor.length := by
  refine ⟨?_, ?_, ?_, ?_, ?_⟩
  · simp [rendered_priority_actions, List.length_take]
  · simp [rendered_week_items, List.length_take]
  · refine ⟨(process_new_plan parse now today msgs tasks events).do_now.drop 8, ?_⟩
    rw [rendered_priority_actions, List.enumFrom_map_snd, List.take_append_drop]
  · exact ⟨(process_new_plan parse now today msgs tasks events).do_soon.drop 7,
      List.take_append_drop 7 _⟩
  · rfl

/-! Thread grouping (`gmail_thread_tools.py`, `group_emails_by_thread`). -/

/-- `threads[normalized].append(email)` on the defaultdict: append to the
group when the key exists, else start a new group at the end. -/
def add_to_group (d : List (Str × List Email)) (k : Str) (e : Email) :
    List (Str × List Email) :=
  if d.any (fun kv => kv.1 == k) then
    d.map (fun kv => if kv.1 == k then (kv.1, kv.2 ++ [e]) else kv)
  else d ++ [(k, [e])]

/-- Lexicographic order on code-point strings, Python's `<` on `str`. -/
def strLtNat : Str → Str → Bool
  | [], [] => false
  | [], _ :: _ => true
  | _ :: _, [] => false
  | a :: as', b :: bs' => if a < b then true else if b < a then false else strLtNat as' bs'

/-- Stable insertion for the ascending per-thread date sort. -/
def insertAscByDate (x : Email) : List Email → List Email
  | [] => [x]
  | y :: ys => if strLtNat x.date y.date then x :: y :: ys else y :: insertAscByDate x ys

/-- `thread.sort(key=lambda e: e.get('date', ''))`: Python's stable sort by
the date string. -/
def sortByDate (l : List Email) : List Email :=
  l.foldl (fun acc x => insertAscByDate x acc) []

/-- `group_emails_by_thread`: group by normalized subject in first-seen key
order, then sort each thread by date. -/
def group_emails_by_thread (emails : List Email) : List (Str × List Email) :=
  (emails.foldl (fun d e => add_to_group d (normalize_subject e.subject) e) []).map
    (fun kv => (kv.1, sortByDate kv.2))

theorem insertAscByDate_perm (x : Email) (l : List Email) :
    (insertAscByDate x l).Perm (x :: l) := by
  induction l with
  | nil => simp [insertAscByDate]
  | cons y ys ih =>
    by_cases hk : strLtNat x.date y.date
    · simp [insertAscByDate, hk]
    · simp only [insertAscByDate, if_neg hk]
      exact (List.Perm.cons y ih).trans (List.Perm.swap x y ys)

theorem sortByDate_aux_perm (l : List Email) :
    ∀ acc : List Email,
      (l.foldl (fun acc x => insertAscByDate x acc) acc).Perm (acc ++ l) := by
  induction l with
  | nil => intro acc; simp
  | cons x xs ih =>
    intro acc
    have h3 : (insertAscByDate x acc ++ xs).Perm (acc ++ x :: xs) :=
      (List.Perm.append_right xs (insertAscByDate_perm x acc)).trans List.perm_middle.symm
    exact (ih (insertAscByDate x acc)).trans h3

theorem sortByDate_perm (l : List Email) : (sortByDate l).Perm l := by
  simpa using sortByDate_aux_perm l []

theorem keys_add_to_group (d : List (Str × List Email)) (k : Str) (e : Email) :
    (add_to_group d k e).map (fun kv => kv.1) =
      if d.any (fun kv => kv.1 == k) then d.map (fun kv => kv.1)
      else d.map (fun kv => kv.1) ++ [k] := by
  rw [add_to_group]
  by_cases h : d.any (fun kv => kv.1 == k)
  · rw [if_pos h, if_pos h, List.map_map]
    refine List.map_congr_left ?_
    intro kv _
    simp only [Function.comp_apply]
    by_cases hk : (kv.1 == k) = true
    · rw [if_pos hk]
    · rw [if_neg hk]
  · rw [if_neg h, if_neg h, List.map_append]
    rfl

theorem map_update_id (k : Str) (e : Email) (rest : List (Str × List Email))
    (h : ∀ kv' ∈ rest, kv'.1 ≠ k) :
    rest.map (fun kv' => if kv'.1 == k then (kv'.1, kv'.2 ++ [e]) else kv') = rest := by
  induction rest with
  | nil => rfl
  | cons kv' rest' ih =>
    have h1 : kv'.1 ≠ k := h kv' (List.mem_cons_self _ _)
    have h2 : (kv'.1 == k) = false := by simpa using h1
    simp only [List.map_cons, h2, Bool.false_eq_true, if_false]
    rw [ih (fun kv'' h'' => h kv'' (List.mem_cons_of_mem _ h''))]

theorem join_update_group (k : Str) (e : Email) :
    ∀ d : List (Str × List Email), (d.map (fun kv => kv.1)).Nodup →
      d.any (fun kv => kv.1 == k) = true →
      ((d.map (fun kv => if kv.1 == k then (kv.1, kv.2 ++ [e]) else kv)).map
        (fun kv => kv.2)).join.Perm ((d.map (fun kv => kv.2)).join ++ [e]) := by
  intro d
  induction d with
  | nil => intro _ h; simp at h
  | cons kv rest ih =>
    intro hnd hany
    have hnd' : (rest.map (fun kv => kv.1)).Nodup := (List.nodup_cons.mp hnd).2
    by_cases hk : (kv.1 == k) = true
    · have hkeq : kv.1 = k := by simpa using hk
      have hnotin : kv.1 ∉ rest.map (fun kv => kv.1) := (List.nodup_cons.mp hnd).1
      have hrest_ne : ∀ kv' ∈ rest, kv'.1 ≠ k := by
        intro kv' h' hcon
        exact hnotin (hkeq ▸ hcon ▸ List.mem_map_of_mem (fun kv => kv.1) h')
      simp only [List.map_cons, if_pos hk, map_update_id k e rest hrest_ne, List.join_cons]
      have hperm : kv.2 ++ ([e] ++ (rest.map (fun kv => kv.2)).join) |>.Perm
          (kv.2 ++ ((rest.map (fun kv => kv.2)).join ++ [e])) :=
        List.Perm.append_left kv.2 List.perm_append_comm
      have hl : (kv.2 ++ [e]) ++ (rest.map (fun kv => kv.2)).join =
          kv.2 ++ ([e] ++ (rest.map (fun kv => kv.2)).join) := by
        rw [List.append_assoc]
      have hr : kv.2 ++ ((rest.map (fun kv => kv.2)).join ++ [e]) =
          (kv.2 ++ (rest.map (fun kv => kv.2)).join) ++ [e] := by
        rw [List.append_assoc]
      rw [hl, ← hr]
      exact hperm
    · have hany' : rest.any (fun kv => kv.1 == k) = true := by
        simpa [List.any_cons, hk] using hany
      simp only [List.map_cons, if_neg hk, List.join_cons]
      have hih := ih hnd' hany'
      have hstep := List.Perm.append_left kv.2 hih
      simpa [List.append_assoc] using hstep

theorem join_add_to_group (d : List (Str × List Email)) (k : Str) (e : Email)
    (hnd : (d.map (fun kv => kv.1)).Nodup) :
    ((add_to_group d k e).map (fun kv => kv.2)).join.Perm
      ((d.map (fun kv => kv.2)).join ++ [e]) := by
  rw [add_to_group]
  by_cases h : d.any (fun kv => kv.1 == k)
  · rw [if_pos h]
    exact join_update_group k e d hnd h
  · rw [if_neg h]
    simp

theorem nodup_keys_add_to_group (d : List (Str × List Email)) (k : Str) (e : Email)
    (hnd : (d.map (fun kv => kv.1)).Nodup) :
    ((add_to_group d k e).map (fun kv => kv.1)).Nodup := by
  rw [keys_add_to_group]
  by_cases h : d.any (fun kv => kv.1 == k)
  · rw [if_pos h]; exact hnd
  · rw [if_neg h]
    have hnot : k ∉ d.map (fun kv => kv.1) := by
      intro hmem
      rcases List.mem_map.mp hmem with ⟨kv, hkv, hfe⟩
      exact h (List.any_eq_true.mpr ⟨kv, hkv, by simp [hfe]⟩)
    refine List.Nodup.append hnd (List.nodup_singleton k) ?_
    intro a ha hb
    rcases List.mem_singleton.mp hb with rfl
    exact hnot ha

theorem correct_add_to_group (d : List (Str × List Email)) (e : Email)
    (hc : ∀ kv ∈ d, ∀ x ∈ kv.2, normalize_subject x.subject = kv.1) :
    ∀ kv ∈ add_to_group d (normalize_subject e.subject) e,
      ∀ x ∈ kv.2, normalize_subject x.subject = kv.1 := by
  intro kv hkv x hx
  rw [add_to_group] at hkv
  by_cases h : d.any (fun kv => kv.1 == normalize_subject e.subject)
  · rw [if_pos h] at hkv
    rcases List.mem_map.mp hkv with ⟨kv', hkv', hfe⟩
    by_cases hk : (kv'.1 == normalize_subject e.subject) = true
    · rw [if_pos hk] at hfe
      subst hfe
      rcases List.mem_append.mp hx with hx | hx
      · exact hc kv' hkv' x hx
      · rcases List.mem_singleton.mp hx with rfl
        exact ((by simpa using hk : kv'.1 = normalize_subject x.subject)).symm
    · rw [if_neg hk] at hfe
      subst hfe
      exact hc kv' hkv' x hx
  · rw [if_neg h] at hkv
    rcases List.mem_append.mp hkv with hkv | hkv
    · exact hc kv hkv x hx
    · rcases List.mem_singleton.mp hkv with rfl
      rcases List.mem_singleton.mp hx with rfl
      rfl

theorem group_fold_inv (l : List Email) :
    ∀ d : List (Str × List Email),
      (d.map (fun kv => kv.1)).Nodup →
      (∀ kv ∈ d, ∀ x ∈ kv.2, normalize_subject x.subject = kv.1) →
      ((((l.foldl (fun d e => add_to_group d (normalize_subject e.subject) e) d)).map
          (fun kv => kv.1)).Nodup ∧
        (∀ kv ∈ l.foldl (fun d e => add_to_group d (normalize_subject e.subject) e) d,
          ∀ x ∈ kv.2, normalize_subject x.subject = kv.1) ∧
        (((l.foldl (fun d e => add_to_group d (normalize_subject e.subject) e) d).map
          (fun kv => kv.2)).join).Perm ((d.map (fun kv => kv.2)).join ++ l)) := by
  induction l with
  | nil =>
    intro d hnd hc
    exact ⟨hnd, hc, by simp⟩
  | cons e es ih =>
    intro d hnd hc
    have hnd' := nodup_keys_add_to_group d (normalize_subject e.subject) e hnd
    have hc' := correct_add_to_group d e hc
    obtain ⟨h1, h2, h3⟩ := ih (add_to_group d (normalize_subject e.subject) e) hnd' hc'
    refine ⟨h1, h2, ?_⟩
    have hstep := join_add_to_group d (normalize_subject e.subject) e hnd
    have hstep' := List.Perm.append_right es hstep
    refine h3.trans (hstep'.trans ?_)
    rw [List.append_assoc]
    exact List.Perm.refl _

theorem join_map_sort_perm (d : List (Str × List Email)) :
    ((d.map (fun kv => (kv.1, sortByDate kv.2))).map (fun kv => kv.2)).join.Perm
      ((d.map (fun kv => kv.2)).join) := by
  induction d with
  | nil => simp
  | cons kv rest ih =>
    simp only [List.map_cons, List.join_cons]
    exact List.Perm.append (sortByDate_perm kv.2) ih

/-- C10: thread grouping partitions its input: thread keys are distinct, every
email of a thread has that thread's key as its normalized subject, the
concatenation of all threads is a permutation of the input (nothing dropped
or duplicated), and the thread sizes sum to the input length. -/
theorem C10_group_partitions (emails : List Email) :
    ((group_emails_by_thread emails).map (fun kv => kv.1)).Nodup ∧
    (∀ kv ∈ group_emails_by_thread emails, ∀ x ∈ kv.2,
      normalize_subject x.subject = kv.1) ∧
    (((group_emails_by_thread emails).map (fun kv => kv.2)).join).Perm emails ∧
    ((group_emails_by_thread emails).map (fun kv => kv.2.length)).sum = emails.length := by
  obtain ⟨h1, h2, h3⟩ := group_fold_inv emails [] (by simp) (by simp)
  have hjoin : (((group_emails_by_thread emails).map (fun kv => kv.2)).join).Perm emails := by
    rw [group_emails_by_thread]
    refine (join_map_sort_perm _).trans ?_
    simpa using h3
  refine ⟨?_, ?_, hjoin, ?_⟩
  · rw [group_emails_by_thread, List.map_map]
    simpa using h1
  · intro kv hkv x hx
    rw [group_emails_by_thread] at hkv
    rcases List.mem_map.mp hkv with ⟨kv', hkv', rfl⟩
    have hx' : x ∈ kv'.2 := (sortByDate_perm kv'.2).mem_iff.mp hx
    exact h2 kv' hkv' x hx'
  · have hlen := hjoin.length_eq
    rw [List.length_join, List.map_map] at hlen
    simpa using hlen
